import Mathlib

/-!
Verification development for the Rezepte repository.

Texts are modelled as `List Char`.  The Python regular expressions used by
`onenote_import.py` and `analysis.py` are embedded as executable functions
that reproduce the backtracking behaviour of CPython's `re` module on the
specific patterns appearing in the source (documented at each definition).
Floating point rounding (`round(x, n)`) is modelled over `ℚ` with Python's
round-half-to-even rule.
-/

/-- Texts are lists of characters. -/
abbrev Str := List Char

/-- Conversion from Lean string literals. -/
def toL (s : String) : Str := s.toList

/-- Python whitespace characters (`str.strip` default set / regex `\s`, ASCII part). -/
def pyWs (c : Char) : Bool :=
  c = ' ' || c = '\t' || c = '\n' || c = '\r' || c = '\x0b' || c = '\x0c'

/-- ASCII decimal digit (regex `\d` on the inputs considered). -/
def isDigit (c : Char) : Bool := '0' ≤ c && c ≤ '9'

/-- Lower-casing of a character as `str.lower` does for the alphabet used by the
repository (ASCII letters plus the German umlauts). -/
def lowerChar (c : Char) : Char :=
  if 'A' ≤ c ∧ c ≤ 'Z' then Char.ofNat (c.toNat + 32)
  else if c = 'Ä' then 'ä'
  else if c = 'Ö' then 'ö'
  else if c = 'Ü' then 'ü'
  else c

/-- `str.lower`. -/
def lowerStr (s : Str) : Str := s.map lowerChar

/-- Word characters for regex `\b` (`\w`: letters, digits, underscore; the
German letters of the input alphabet included). -/
def isWordChar (c : Char) : Bool :=
  ('a' ≤ c && c ≤ 'z') || ('A' ≤ c && c ≤ 'Z') || isDigit c || c = '_' ||
  c = 'ä' || c = 'ö' || c = 'ü' || c = 'Ä' || c = 'Ö' || c = 'Ü' || c = 'ß'

/-- Letters matched by `_WORD_RE = [a-zA-ZäöüÄÖÜß]+`. -/
def isLetterDe (c : Char) : Bool :=
  ('a' ≤ c && c ≤ 'z') || ('A' ≤ c && c ≤ 'Z') ||
  c = 'ä' || c = 'ö' || c = 'ü' || c = 'Ä' || c = 'Ö' || c = 'Ü' || c = 'ß'

/-- `s.lstrip()` (left strip of Python whitespace). -/
def lstripF (s : Str) : Str := s.dropWhile pyWs

/-- `s.rstrip()` (right strip of Python whitespace). -/
def rstripF (s : Str) : Str := (s.reverse.dropWhile pyWs).reverse

/-- `s.strip()`; trimming the two ends commutes, realised here as right strip
followed by left strip. -/
def strip (s : Str) : Str := lstripF (rstripF s)

/-- The character at index `i`, with a NUL sentinel past the end (the sentinel
makes every character-class and literal test of the embedded regexes fail at
end of string, as CPython's `re` does). -/
def nthC (s : Str) (i : ℕ) : Char := (s.drop i).headD '\x00'

/-- Python slicing `s[a:b]`. -/
def pySlice (s : Str) (a b : ℕ) : Str := (s.drop a).take (b - a)

/-- `str.splitlines` for the line boundaries occurring in the inputs
(`\r\n`, `\n`, `\r`, `\x0b`, `\x0c`); a trailing boundary produces no empty
final line. -/
def splitlinesGo (cur : Str) : Str → List Str
  | [] => if cur = [] then [] else [cur.reverse]
  | '\r' :: '\n' :: rest => cur.reverse :: splitlinesGo [] rest
  | c :: rest =>
    if c = '\n' || c = '\r' || c = '\x0b' || c = '\x0c' then
      cur.reverse :: splitlinesGo [] rest
    else splitlinesGo (c :: cur) rest

/-- `str.splitlines`. -/
def splitlines (s : Str) : List Str := splitlinesGo [] s

/-- `"\n".join(lines)`. -/
def joinNl (ls : List Str) : Str := List.intercalate [ '\n' ] ls

/-- Substring test, Python's `needle in haystack`. -/
def isSubstr (needle hay : Str) : Bool :=
  (List.range (hay.length + 1)).any fun i => List.isPrefixOf needle (hay.drop i)

/-- Case-insensitive literal match of `kw` (given lower-case) at position `p`. -/
def lowerPrefixAt (s : Str) (p : ℕ) (kw : Str) : Bool :=
  ((s.drop p).take kw.length).map lowerChar = kw

/-- Does position `p` satisfy the multiline `^` anchor? -/
def isLineStart (s : Str) (p : ℕ) : Bool :=
  p = 0 || nthC s (p - 1) = '\n'

/-- Length of the maximal run of regex whitespace starting at `p`. -/
def wsRunLen (s : Str) (p : ℕ) : ℕ := ((s.drop p).takeWhile pyWs).length

/-- Largest index in `[a, b)` holding a newline, if any. -/
def lastNl (s : Str) (a b : ℕ) : Option ℕ :=
  (List.range' a (b - a)).reverse.find? fun i => nthC s i = '\n'

/-- Largest index in `[a, b)` holding a character other than newline, if any. -/
def lastNonNl (s : Str) (a b : ℕ) : Option ℕ :=
  (List.range' a (b - a)).reverse.find? fun i => !(nthC s i = '\n')

/-- Index of the first newline at or after `c` (or the text length): where the
greedy `(.+)` starting at `c` ends, `$` matching there in multiline mode. -/
def lineEndFrom (s : Str) (c : ℕ) : ℕ :=
  c + ((s.drop c).takeWhile (fun ch => !(ch = '\n'))).length

/-!  Header lines.

`_HEADER_PATTERN` and the per-section patterns all have the shape
`(?im)^(?:kw1|kw2|...)\s*:?\s*$`.  After the keyword, CPython's backtracking
resolves `\s*:?\s*$` as follows (ws runs are maximal, `$` matches at a
newline or at end of text):
* let `q1` be the end of the maximal `\s` run after the keyword; if `q1` is
  the end of text the match ends at `q1`;
* if the character at `q1` is `:`, let `q3` be the end of the maximal `\s`
  run after it; the match ends at `q3` if that is the end of text, else
  before the last newline of that second run, if it has one;
* otherwise (and as fallback of the previous case) the match ends before the
  last newline of the first run, if it has one; else there is no match. -/
def headerTailAt (s : Str) (k : ℕ) : Option ℕ :=
  let a := wsRunLen s k
  let q1 := k + a
  if q1 < s.length then
    if nthC s q1 = ':' then
      let b := wsRunLen s (q1 + 1)
      let q3 := q1 + 1 + b
      if q3 < s.length then
        match lastNl s (q1 + 1) q3 with
        | some i => some i
        | none => lastNl s k q1
      else some q3
    else lastNl s k q1
  else some q1

/-- Match of a header pattern with keyword alternatives `kws` (in the order of
the alternation, with backtracking into later alternatives) at position `p`;
returns the end of the match. -/
def keywordHeaderAt (kws : List Str) (s : Str) (p : ℕ) : Option ℕ :=
  if isLineStart s p then
    kws.findSome? fun kw =>
      if lowerPrefixAt s p kw then headerTailAt s (p + kw.length) else none
  else none

/-- `re.search` of a header pattern: the leftmost match, as `(start, end)`. -/
def searchHeader (kws : List Str) (s : Str) : Option (ℕ × ℕ) :=
  (List.range s.length).findSome? fun p =>
    (keywordHeaderAt kws s p).map fun e => (p, e)

/-!  Title lines: `_TITLE_LINE_PATTERN = (?im)^(?:titel|title)\s*:\s*(.+)$`.

After the keyword the first `\s*` must be followed by `:` (shorter runs end
at whitespace, so only the maximal run can be followed by the colon); after
the colon the greedy `\s*` backtracks until `(.+)$` matches, i.e. until the
current character exists and is not a newline; `(.+)` then extends greedily
to the end of that line. -/
def titleTailAt (s : Str) (k : ℕ) : Option (ℕ × ℕ) :=
  let a := wsRunLen s k
  let q1 := k + a
  if q1 < s.length then
    if nthC s q1 = ':' then
      let b := wsRunLen s (q1 + 1)
      let q3 := q1 + 1 + b
      let cstart := if q3 < s.length then some q3 else lastNonNl s (q1 + 1) q3
      match cstart with
      | some c => some (lineEndFrom s c, c)
      | none => none
    else none
  else none

/-- The two title keywords, in alternation order. -/
def titleKws : List Str := [toL "titel", toL "title"]

/-- Match of the title pattern at `p`: `(match end, group-1 start)`. -/
def titleMatchAt (s : Str) (p : ℕ) : Option (ℕ × ℕ) :=
  if isLineStart s p then
    titleKws.findSome? fun kw =>
      if lowerPrefixAt s p kw then titleTailAt s (p + kw.length) else none
  else none

/-- `re.finditer` of the title pattern: start positions of the non-overlapping
matches, scanning left to right and resuming after each match's end. -/
def titleScanAux (s : Str) : ℕ → ℕ → List ℕ
  | 0, _ => []
  | fuel + 1, p =>
    if p < s.length then
      match titleMatchAt s p with
      | some pr => p :: titleScanAux s fuel (max pr.1 (p + 1))
      | none => titleScanAux s fuel (p + 1)
    else []

/-- Start positions of all title-line matches. -/
def titleStarts (s : Str) : List ℕ := titleScanAux s (s.length + 1) 0

/-- `re.search` of the title pattern: group 1 of the leftmost match. -/
def titleFirstGroup (s : Str) : Option Str :=
  (List.range s.length).findSome? fun p =>
    (titleMatchAt s p).map fun pr => pySlice s pr.2 pr.1

/-!  `re.split(r'(?:\r?\n){3,}', text)`: separators are maximal runs of at
least three line breaks, each break being `\n` optionally preceded by `\r`. -/

/-- Count and end of the maximal run of `\r?\n` repetitions at `q`. -/
def lineBreakRun (s : Str) : ℕ → ℕ → ℕ × ℕ
  | 0, q => (0, q)
  | fuel + 1, q =>
    if nthC s q = '\n' then
      let pr := lineBreakRun s fuel (q + 1); (pr.1 + 1, pr.2)
    else if nthC s q = '\r' && nthC s (q + 1) = '\n' then
      let pr := lineBreakRun s fuel (q + 2); (pr.1 + 1, pr.2)
    else (0, q)

/-- A `(?:\r?\n){3,}` separator starting at `p`: its end, if it matches. -/
def sepBreakAt (s : Str) (p : ℕ) : Option ℕ :=
  let pr := lineBreakRun s (s.length + 1) p
  if 3 ≤ pr.1 then some pr.2 else none

/-- Splitting scan: pieces between leftmost non-overlapping separators. -/
def splitBreakAux (s : Str) : ℕ → ℕ → ℕ → List Str
  | 0, st, _ => [pySlice s st s.length]
  | fuel + 1, st, p =>
    if p < s.length then
      match sepBreakAt s p with
      | some e => pySlice s st p :: splitBreakAux s fuel e e
      | none => splitBreakAux s fuel st (p + 1)
    else [pySlice s st s.length]

/-- `re.split(r'(?:\r?\n){3,}', s)`. -/
def splitBreakRuns (s : Str) : List Str := splitBreakAux s (s.length + 1) 0 0

/-- No position of `s` starts a `(?:\r?\n){3,}` separator. -/
def noBreakRun (s : Str) : Bool :=
  (List.range s.length).all fun p => (sepBreakAt s p).isNone

/-!  `re.split(r'\n\s*\n+', rest)`: a separator is a newline followed by a
whitespace run containing at least one further newline; by greedy matching
with backtracking it ends just after the last newline of that run. -/

/-- A `\n\s*\n+` separator starting at `p`: its end, if it matches. -/
def sepBlankAt (s : Str) (p : ℕ) : Option ℕ :=
  if nthC s p = '\n' then
    let r := wsRunLen s (p + 1)
    (lastNl s (p + 1) (p + 1 + r)).map (· + 1)
  else none

/-- Splitting scan for `\n\s*\n+`. -/
def splitBlankAux (s : Str) : ℕ → ℕ → ℕ → List Str
  | 0, st, _ => [pySlice s st s.length]
  | fuel + 1, st, p =>
    if p < s.length then
      match sepBlankAt s p with
      | some e => pySlice s st p :: splitBlankAux s fuel e e
      | none => splitBlankAux s fuel st (p + 1)
    else [pySlice s st s.length]

/-- `re.split(r'\n\s*\n+', s)`. -/
def splitBlankRuns (s : Str) : List Str := splitBlankAux s (s.length + 1) 0 0

/-!  ## onenote_import.py -/

/-- `_CATEGORY_WORDS`. -/
def kategorieKws : List Str := [toL "kategorie"]

/-- `_INGREDIENTS_WORDS`. -/
def zutatenKws : List Str := [toL "zutaten"]

/-- `_INSTRUCTIONS_WORDS`. -/
def instructionKws : List Str := [toL "zubereitung", toL "anleitung"]

/-- `_PORTIONS_WORDS`. -/
def portionKws : List Str := [toL "portionen", toL "servieren"]

/-- `_TIME_WORDS`. -/
def timeKws : List Str := [toL "zeit", toL "dauer", toL "zubereitungszeit"]

/-- `_DIFFICULTY_WORDS`. -/
def difficultyKws : List Str := [toL "schwierigkeit", toL "schwierigkeitsgrad"]

/-- `_IMAGES_WORDS`. -/
def imageKws : List Str :=
  [toL "bilder", toL "bild", toL "foto", toL "fotos", toL "image", toL "images"]

/-- The combined `_HEADER_PATTERN` keyword alternation, in source order. -/
def headerKws : List Str :=
  kategorieKws ++ zutatenKws ++ instructionKws ++ portionKws ++ timeKws ++
    difficultyKws ++ imageKws

/-- First substitution of `remove_list_prefix`: drop a leading
`\s*[-\*•]\s+` marker (bullet must be followed by whitespace). -/
def subBullet (s : Str) : Str :=
  match s.dropWhile pyWs with
  | c :: rest =>
    if (c = '-' ∨ c = '*' ∨ c = '•') ∧ pyWs (rest.headD '\x00') then
      rest.dropWhile pyWs
    else s
  | [] => s

/-- Second substitution of `remove_list_prefix`: drop a leading
`\s*\d+[.)]\s+` numbered-list marker. -/
def subNum (s : Str) : Str :=
  let t := s.dropWhile pyWs
  let ds := t.takeWhile isDigit
  let r := t.drop ds.length
  if ds ≠ [] ∧ (r.headD '\x00' = '.' ∨ r.headD '\x00' = ')') ∧
      pyWs ((r.drop 1).headD '\x00') then
    (r.drop 1).dropWhile pyWs
  else s

/-- `remove_list_prefix` of `_extract_section`: the two substitutions, then
`strip`. -/
def removeListMarker (s : Str) : Str := strip (subNum (subBullet s))

/-- End of the section that begins at `st`: the start of the next recognised
header in the remaining text (`next_header.start()` searched in `text[start:]`)
or the end of text. -/
def sectionStop (g : Str) (st : ℕ) : ℕ :=
  match searchHeader headerKws (g.drop st) with
  | some nh => st + nh.1
  | none => g.length

/-- `sec_text = text[start:end].strip()`. -/
def sectionText (g : Str) (st : ℕ) : Str := strip (pySlice g st (sectionStop g st))

/-- `_extract_section(start_regex, text)`: from the end of the first matching
section header, take text until the next recognised header or end of text,
strip it, and keep the non-blank lines with list markers removed. -/
def extractSection (kws : List Str) (g : Str) : List Str :=
  match searchHeader kws g with
  | none => []
  | some m =>
    ((splitlines (sectionText g m.2)).filter fun l => decide (strip l ≠ [])).map
      removeListMarker

/-- First non-blank line of a section, stripped (the inner loop shared by the
category / portions / time / difficulty extractions). -/
def firstNonBlankStripped (sec : Str) : Option Str :=
  ((splitlines sec).find? fun l => decide (strip l ≠ [])).map strip

/-- The inline loops for category / portions / time / difficulty: first
non-blank line (stripped) of the section following the header, if any. -/
def extractFirstLineOpt (kws : List Str) (g : Str) : Option Str :=
  match searchHeader kws g with
  | none => none
  | some m => firstNonBlankStripped (sectionText g m.2)

/-- `re.match(r'^https?://', b.strip(), re.I)` as a Boolean. -/
def isHttpLink (b : Str) : Bool :=
  lowerPrefixAt (strip b) 0 (toL "http://") || lowerPrefixAt (strip b) 0 (toL "https://")

/-- Non-blank lines of a fallback chunk, stripped (`[l.strip() for l in
c.splitlines() if l.strip()]`). -/
def cleanLines (c : Str) : List Str :=
  ((splitlines c).filter fun l => decide (strip l ≠ [])).map strip

/-- `zeilen = [l.rstrip() for l in block.splitlines()]`. -/
def pyLines (block : Str) : List Str := (splitlines block).map rstripF

/-- `gesamt = "\n".join(zeilen)`. -/
def gesamtOf (block : Str) : Str := joinNl (pyLines block)

/-- The structured record produced by `rezept_parsen`. -/
structure Rezept where
  titel : Str
  kategorie : Option Str
  zutaten : List Str
  schritte : List Str
  portionen : Str
  zeit : Str
  schwierigkeit : Str
  bilder : List Str
  raw : Str
deriving DecidableEq

/-- `rezept_parsen(block)`. -/
def rezept_parsen (block : Str) : Rezept :=
  let zeilen := pyLines block
  let gesamt := gesamtOf block
  let titel :=
    match titleFirstGroup gesamt with
    | some g => strip g
    | none => strip ((zeilen.find? fun l => decide (strip l ≠ [])).getD (toL "Unbekannt"))
  let kategorie := extractFirstLineOpt kategorieKws gesamt
  let zutaten0 := extractSection zutatenKws gesamt
  let schritte0 := extractSection instructionKws gesamt
  let bilder := (extractSection imageKws gesamt).filter isHttpLink
  let portionen := (extractFirstLineOpt portionKws gesamt).getD []
  let zeit := (extractFirstLineOpt timeKws gesamt).getD []
  let schwierigkeit := (extractFirstLineOpt difficultyKws gesamt).getD []
  let rest := strip (joinNl (zeilen.drop 1))
  let pair :=
    if zutaten0 = [] ∧ schritte0 = [] then
      if rest ≠ [] then
        let chunks := splitBlankRuns rest
        ((if 1 ≤ chunks.length then cleanLines (chunks.getD 0 []) else []),
         (if 2 ≤ chunks.length then cleanLines (chunks.getD 1 []) else []))
      else ([], [])
    else (zutaten0, schritte0)
  { titel := titel, kategorie := kategorie, zutaten := pair.1, schritte := pair.2,
    portionen := portionen, zeit := zeit, schwierigkeit := schwierigkeit,
    bilder := bilder, raw := block }

/-- The block loop of `rezepte_aufteilen`: for each match start, the block up
to the next start (or end of text), stripped, dropped when empty. -/
def blocksLoop (text : Str) : List ℕ → List Str
  | [] => []
  | [a] =>
    let b := strip (pySlice text a text.length)
    if b = [] then [] else [b]
  | a :: b :: rest =>
    (let blk := strip (pySlice text a b); if blk = [] then [] else [blk]) ++
      blocksLoop text (b :: rest)

/-- `rezepte_aufteilen(text)`. -/
def rezepte_aufteilen (text : Str) : List Str :=
  let starts := titleStarts text
  if starts = [] then
    ((splitBreakRuns text).map strip).filter fun b => decide (b ≠ [])
  else blocksLoop text starts

/-!  ## analysis.py -/

/-- The recipe fields read by `analyze_recipe` / `_recipe_similarity`. -/
structure RecipeIn where
  titel : Str
  kategorie : Option Str
  zutaten : List Str
  schritte : List Str
deriving DecidableEq

/-- Default record (used only to totalise list indexing). -/
def defaultRecipe : RecipeIn := ⟨[], none, [], []⟩

/-- `_RISKY_INGREDIENTS["processed_meat"]`. -/
def processedNeedles : List Str :=
  [toL "pancetta", toL "speck", toL "salami", toL "wurst", toL "schinken", toL "bacon"]

/-- `_RISKY_INGREDIENTS["red_meat"]`. -/
def redNeedles : List Str := [toL "rind", toL "schwein", toL "hackfleisch"]

/-- `_RISKY_INGREDIENTS["high_sugar"]`. -/
def sugarNeedles : List Str := [toL "zucker", toL "sirup"]

/-- `_PROTECTIVE_INGREDIENTS`. -/
def protectiveWords : List Str :=
  [toL "brokkoli", toL "beeren", toL "hafer", toL "linsen", toL "hülsenfrüchte",
   toL "spinat", toL "kurkuma", toL "nüsse", toL "leinsamen"]

/-- `_TOKEN_SYNONYMS`. -/
def tokenSynonyms : List (Str × Str) :=
  [(toL "spaghetti", toL "nudeln"), (toL "pasta", toL "nudeln"),
   (toL "napoli", toL "tomatensosse"), (toL "tomatensoße", toL "tomatensosse"),
   (toL "tomatensauce", toL "tomatensosse"), (toL "hafermilch", toL "pflanzenmilch"),
   (toL "mandelmilch", toL "pflanzenmilch"), (toL "milch", toL "milchbasis"),
   (toL "butter", toL "fett"), (toL "ghee", toL "fett"),
   (toL "knoblauch", toL "aroma"), (toL "kraeuter", toL "aroma"),
   (toL "kräuter", toL "aroma")]

/-- `_STOPWORDS`. -/
def stopwords : List Str :=
  [toL "mit", toL "und", toL "der", toL "die", toL "das", toL "ein", toL "eine",
   toL "zu", toL "für", toL "im", toL "in"]

/-- `_contains_any(text, needles)`. -/
def containsAny (text : Str) (needles : List Str) : Bool :=
  needles.any fun n => isSubstr n (lowerStr text)

/-- Maximal letter runs (`_WORD_RE.findall`). -/
def wordRunsAux (acc : Str) : Str → List Str
  | [] => if acc = [] then [] else [acc.reverse]
  | c :: rest =>
    if isLetterDe c then wordRunsAux (c :: acc) rest
    else (if acc = [] then [] else [acc.reverse]) ++ wordRunsAux [] rest

/-- `_WORD_RE.findall(s)`. -/
def wordRuns (s : Str) : List Str := wordRunsAux [] s

/-- `_normalize_word(token)`. -/
def normalizeWord (token : Str) : Str :=
  let t := strip (lowerStr token)
  if stopwords.contains t then []
  else ((tokenSynonyms.find? fun pr => pr.1 = t).map fun pr => pr.2).getD t

/-- `_tokenize(text)`: set of normalised words. -/
def tokenize (text : Str) : Finset Str :=
  (((wordRuns (lowerStr text)).map normalizeWord).filter fun t => decide (t ≠ [])).toFinset

/-- The text `f"{titel} {' '.join(zutaten)}"` fed to the tokenizer. -/
def simText (r : RecipeIn) : Str :=
  r.titel ++ (' ' :: List.intercalate (toL " ") r.zutaten)

/-- `_recipe_similarity(a, b)` over `ℚ`. -/
def recipe_similarity (a b : RecipeIn) : ℚ :=
  let sa := tokenize (simText a)
  let sb := tokenize (simText b)
  if sa = ∅ ∨ sb = ∅ then 0
  else ((sa ∩ sb).card : ℚ) / ((sa ∪ sb).card : ℚ)

/-!  `_MEASURE_RE = \b\d+[\d.,]*\s*(g|kg|ml|l|tl|el|stk|stück|prise|tasse|cup)\b`.

At a match start `p` the previous character is a non-word character (or the
string start) and `s[p]` is a digit.  The three character classes `\d`,
`[\d.,]` and `\s` contain no letters, and every unit word starts with a
letter, so backtracking cannot move the unit's start: it sits exactly after
the maximal digit run, the maximal `[\d.,]` run and the maximal whitespace
run.  The trailing `\b` requires a non-word character (or end) after the
unit. -/

/-- Unit alternation of `_MEASURE_RE`, in source order. -/
def measUnits : List Str :=
  [toL "g", toL "kg", toL "ml", toL "l", toL "tl", toL "el", toL "stk",
   toL "stück", toL "prise", toL "tasse", toL "cup"]

/-- Match of `_MEASURE_RE` starting at position `p`. -/
def measureMatchAt (s : Str) (p : ℕ) : Bool :=
  (p = 0 || !(isWordChar (nthC s (p - 1)))) &&
  isDigit (nthC s p) &&
  (let d := ((s.drop p).takeWhile isDigit).length
   let e1 := ((s.drop (p + d)).takeWhile fun c => isDigit c || c = '.' || c = ',').length
   let w := wsRunLen s (p + d + e1)
   let q := p + d + e1 + w
   measUnits.any fun u => lowerPrefixAt s q u && !(isWordChar (nthC s (q + u.length))))

/-- `_MEASURE_RE.search(s)` as a Boolean. -/
def measureSearch (s : Str) : Bool :=
  (List.range s.length).any fun p => measureMatchAt s p

/-- Python's `round` to an integer (round half to even). -/
def pyRoundInt (q : ℚ) : ℤ :=
  let f := Rat.floor q
  let r := q - f
  if r < 1/2 then f
  else if 1/2 < r then f + 1
  else if f % 2 = 0 then f else f + 1

/-- `round(q, 3)`. -/
def round3 (q : ℚ) : ℚ := (pyRoundInt (q * 1000) : ℚ) / 1000

/-- `round(q, 1)`. -/
def round1 (q : ℚ) : ℚ := (pyRoundInt (q * 10) : ℚ) / 10

/-- The per-recipe record returned by `analyze_recipe` (the constant
disclaimer field is omitted). -/
structure AnalysisItem where
  titel : Str
  quality_score : ℤ
  issues : List Str
  warnings : List Str
  suggestions : List Str
  prostata_krebs : Str
  brustkrebs : Str
  risk_flags : List Str
  protective_hits : ℕ
deriving DecidableEq

/-- `[str(x).strip() for x in xs if str(x).strip()]`. -/
def cleaned (xs : List Str) : List Str :=
  (xs.map strip).filter fun x => decide (x ≠ [])

/-- `" | ".join(ingredients).lower()`. -/
def joinedIngredients (ing : List Str) : Str :=
  lowerStr (List.intercalate (toL " | ") ing)

/-- `analyze_recipe(recipe)`. -/
def analyze_recipe (r : RecipeIn) : AnalysisItem :=
  let title := strip r.titel
  let category := strip (r.kategorie.getD [])
  let ingredients := cleaned r.zutaten
  let steps := cleaned r.schritte
  let issues :=
    (if title = [] ∨ lowerStr title = toL "unbekannt"
       then [toL "Titel fehlt oder ist unklar"] else []) ++
    (if ingredients = [] then [toL "Zutaten fehlen"] else []) ++
    (if steps = [] then [toL "Zubereitungsschritte fehlen"] else [])
  let withoutMeasure := ingredients.filter fun i => !(measureSearch i)
  let joined := joinedIngredients ingredients
  let pm := containsAny joined processedNeedles
  let rm := containsAny joined redNeedles
  let hs := containsAny joined sugarNeedles
  let risk_flags :=
    (if pm then [toL "processed_meat"] else []) ++
    (if rm then [toL "red_meat"] else []) ++
    (if hs then [toL "high_sugar"] else [])
  let protective := (protectiveWords.filter fun w => isSubstr w joined).length
  let suggestions :=
    if 2 ≤ protective then [toL "Rezept enthält mehrere nährstoffreiche Komponenten"]
    else [toL "Optional mehr ballaststoffreiche Zutaten/Kräuter ergänzen"]
  let warnings :=
    (if category = [] then [toL "Kategorie fehlt"] else []) ++
    (if ingredients ≠ [] ∧ max 2 (ingredients.length / 2) < withoutMeasure.length
       then [toL "Viele Zutaten ohne klare Mengenangaben"] else []) ++
    (if pm then [toL "Verarbeitetes Fleisch erkannt – ggf. durch pflanzliche Alternative ersetzen"]
       else []) ++
    (if hs then [toL "Zuckeranteil prüfen und ggf. reduzieren"] else [])
  let score : ℤ :=
    max 0 (min 100 (100 - 20 * (issues.length : ℤ) - 7 * (warnings.length : ℤ) +
      (if 2 ≤ protective then 5 else 0)))
  { titel := if title = [] then toL "Unbekannt" else title,
    quality_score := score,
    issues := issues,
    warnings := warnings,
    suggestions := suggestions,
    prostata_krebs := if pm ∨ rm then toL "bedingt" else toL "geeignet",
    brustkrebs := if pm ∨ rm then toL "bedingt" else toL "geeignet",
    risk_flags := risk_flags,
    protective_hits := protective }

/-- A similarity candidate of `analyze_recipes`. -/
structure SimCand where
  index_a : ℕ
  titel_a : Str
  index_b : ℕ
  titel_b : Str
  similarity : ℚ
deriving DecidableEq

/-- The `summary` block of the report. -/
structure Summary where
  count : ℕ
  average_quality_score : ℚ
  total_issues : ℕ
  total_warnings : ℕ
  similar_candidates : ℕ
deriving DecidableEq

/-- The report of `analyze_recipes`. -/
structure Report where
  summary : Summary
  similarity_threshold : ℚ
  similar_candidates : List SimCand
  items : List AnalysisItem
deriving DecidableEq

/-- `analyze_recipes(recipes, similarity_threshold)`. -/
def analyze_recipes (recipes : List RecipeIn) (threshold : ℚ) : Report :=
  let items := recipes.map analyze_recipe
  let avg := if items = [] then 0
    else round1 (((items.map fun it => (it.quality_score : ℚ)).sum) / (items.length : ℚ))
  let cands :=
    (List.range recipes.length).flatMap fun i =>
      (List.range' (i + 1) (recipes.length - (i + 1))).filterMap fun j =>
        let sim := recipe_similarity (recipes.getD i defaultRecipe) (recipes.getD j defaultRecipe)
        if threshold ≤ sim then
          some { index_a := i, titel_a := (items.getD i (analyze_recipe defaultRecipe)).titel,
                 index_b := j, titel_b := (items.getD j (analyze_recipe defaultRecipe)).titel,
                 similarity := round3 sim }
        else none
  { summary :=
      { count := items.length,
        average_quality_score := avg,
        total_issues := (items.map fun it => it.issues.length).sum,
        total_warnings := (items.map fun it => it.warnings.length).sum,
        similar_candidates := cands.length },
    similarity_threshold := threshold,
    similar_candidates := cands,
    items := items }

/-!  ## Helper lemmas -/

set_option maxRecDepth 100000

lemma dropWhile_head_not {α} {p : α → Bool} {l : List α} {c : α} {t : List α}
    (h : l.dropWhile p = c :: t) : p c = false := by
  induction l with
  | nil => simp [List.dropWhile] at h
  | cons a l ih =>
    rw [List.dropWhile_cons] at h
    by_cases hp : p a = true
    · exact ih (by simpa [hp] using h)
    · rw [if_neg hp] at h
      cases h
      exact Bool.not_eq_true _ |>.mp hp

lemma dropWhile_decomp {α} (p : α → Bool) (l : List α) :
    ∃ pre, pre ++ l.dropWhile p = l := by
  induction l with
  | nil => exact ⟨[], rfl⟩
  | cons a l ih =>
    rw [List.dropWhile_cons]
    by_cases hp : p a = true
    · obtain ⟨pre, hpre⟩ := ih
      exact ⟨a :: pre, by simp [hp, hpre]⟩
    · exact ⟨[], by simp [hp]⟩

lemma strip_head_not_ws {s : Str} {c : Char} {t : Str} (h : strip s = c :: t) :
    pyWs c = false :=
  dropWhile_head_not (p := pyWs) (l := rstripF s) h

lemma strip_last_not_ws {s : Str} {c : Char} (h : (strip s).getLast? = some c) :
    pyWs c = false := by
  have hne : strip s ≠ [] := by
    intro hs; rw [hs] at h; simp at h
  obtain ⟨pre, hpre⟩ := dropWhile_decomp pyWs (rstripF s)
  have h1 : (rstripF s).getLast? = (strip s).getLast? := by
    conv_lhs => rw [← hpre]
    exact List.getLast?_append_of_ne_nil pre hne
  have h2 : (s.reverse.dropWhile pyWs).reverse.getLast? = (s.reverse.dropWhile pyWs).head? :=
    List.getLast?_reverse _
  have h3 : (s.reverse.dropWhile pyWs).head? = some c := by
    rw [← h2]; rw [show (s.reverse.dropWhile pyWs).reverse = rstripF s from rfl]
    rw [h1]; exact h
  obtain ⟨t2, ht2⟩ : ∃ t2, s.reverse.dropWhile pyWs = c :: t2 := by
    cases hd : s.reverse.dropWhile pyWs with
    | nil => rw [hd] at h3; simp at h3
    | cons x xs => rw [hd] at h3; simp at h3; exact ⟨xs, by rw [h3]⟩
  exact dropWhile_head_not ht2

lemma rstrip_decomp (s : Str) : ∃ post, rstripF s ++ post = s := by
  obtain ⟨q, hq⟩ := dropWhile_decomp pyWs s.reverse
  refine ⟨q.reverse, ?_⟩
  unfold rstripF
  calc (s.reverse.dropWhile pyWs).reverse ++ q.reverse
      = (q ++ s.reverse.dropWhile pyWs).reverse := by rw [List.reverse_append]
    _ = s.reverse.reverse := by rw [hq]
    _ = s := List.reverse_reverse s

lemma strip_decomp (s : Str) : ∃ pre post, pre ++ (strip s ++ post) = s := by
  obtain ⟨pre, hpre⟩ := dropWhile_decomp pyWs (rstripF s)
  obtain ⟨post, hpost⟩ := rstrip_decomp s
  refine ⟨pre, post, ?_⟩
  unfold strip lstripF
  rw [← List.append_assoc, hpre, hpost]

/-!  ## Claim theorems -/

/-- Claim C1: `analyze_recipe` returns a quality score equal to
`clamp(100 − 20·|issues| − 7·|warnings| + bonus, 0, 100)` where the bonus is
5 exactly when the protective hit count is at least 2; the all-empty recipe
yields 3 issues, 1 warning and score 33; every score lies in `[0, 100]`. -/
theorem analyze_recipe_score_spec :
    (∀ r : RecipeIn,
        (analyze_recipe r).quality_score =
          max 0 (min 100 (100 - 20 * ((analyze_recipe r).issues.length : ℤ)
            - 7 * ((analyze_recipe r).warnings.length : ℤ)
            + (if 2 ≤ (analyze_recipe r).protective_hits then (5 : ℤ) else 0)))
      ∧ 0 ≤ (analyze_recipe r).quality_score
      ∧ (analyze_recipe r).quality_score ≤ 100)
    ∧ (analyze_recipe ⟨[], none, [], []⟩).issues.length = 3
    ∧ (analyze_recipe ⟨[], none, [], []⟩).warnings.length = 1
    ∧ (analyze_recipe ⟨[], none, [], []⟩).quality_score = 33 := by
  refine ⟨fun r => ⟨rfl, ?_, ?_⟩, by decide, by decide, by decide⟩
  · have h : (analyze_recipe r).quality_score =
        max 0 (min 100 (100 - 20 * ((analyze_recipe r).issues.length : ℤ)
          - 7 * ((analyze_recipe r).warnings.length : ℤ)
          + (if 2 ≤ (analyze_recipe r).protective_hits then (5 : ℤ) else 0))) := rfl
    rw [h]; exact le_max_left _ _
  · have h : (analyze_recipe r).quality_score =
        max 0 (min 100 (100 - 20 * ((analyze_recipe r).issues.length : ℤ)
          - 7 * ((analyze_recipe r).warnings.length : ℤ)
          + (if 2 ≤ (analyze_recipe r).protective_hits then (5 : ℤ) else 0))) := rfl
    rw [h]
    exact max_le (by norm_num) (min_le_left _ _)

/-- Claim C9: `rezept_parsen` is total (it is a Lean function), preserves the
original block verbatim in the `raw` field, and maps the empty input to the
all-default record. -/
theorem rezept_parsen_total_spec :
    (∀ block : Str, (rezept_parsen block).raw = block)
    ∧ rezept_parsen [] =
        { titel := toL "Unbekannt", kategorie := none, zutaten := [], schritte := [],
          portionen := [], zeit := [], schwierigkeit := [], bilder := [], raw := [] } :=
  ⟨fun _ => rfl, by decide⟩

/-- Claim C7 counterexample: for the block `"Pfannkuchen\n200 g Mehl"` (which
has no category header) the parser records the absent category as `none`
(Python `None`), not as the empty string, contradicting the claim that
absence is encoded as the empty string and never as a null value. -/
theorem rezept_parsen_kategorie_counterexample :
    (rezept_parsen (toL "Pfannkuchen\n200 g Mehl")).kategorie = none
    ∧ (rezept_parsen (toL "Pfannkuchen\n200 g Mehl")).kategorie ≠ some [] := by
  exact ⟨by decide, by decide⟩

/-- Claim C7 (amended): the category of a parsed block is either absent
(`none`) or a non-empty string with neither leading nor trailing whitespace
(so a consumer may split it naively). -/
theorem rezept_parsen_kategorie_spec (block : Str) :
    (rezept_parsen block).kategorie = none
    ∨ ∃ s, (rezept_parsen block).kategorie = some s ∧ s ≠ []
        ∧ pyWs (s.headD 'x') = false ∧ pyWs (s.getLastD 'x') = false := by
  have h : (rezept_parsen block).kategorie =
      extractFirstLineOpt kategorieKws (gesamtOf block) := rfl
  rw [h]
  unfold extractFirstLineOpt
  cases hs : searchHeader kategorieKws (gesamtOf block) with
  | none => exact Or.inl rfl
  | some m =>
    dsimp only
    unfold firstNonBlankStripped
    cases hf : (splitlines (sectionText (gesamtOf block) m.2)).find?
        (fun l => decide (strip l ≠ [])) with
    | none => exact Or.inl rfl
    | some l =>
      have hne : strip l ≠ [] := by simpa using List.find?_some hf
      refine Or.inr ⟨strip l, rfl, hne, ?_, ?_⟩
      · cases hl : strip l with
        | nil => exact absurd hl hne
        | cons c t => simpa [hl] using strip_head_not_ws hl
      · cases hg : (strip l).getLast? with
        | none => exact absurd (List.getLast?_eq_none_iff.mp hg) hne
        | some c =>
          have hlast := strip_last_not_ws hg
          have hx : (strip l).getLastD 'x' = c := by
            simp [List.getLastD_eq_getLast?, hg]
          rw [hx]
          exact hlast

/-- Claim C6: both health labels default to "geeignet" and are "bedingt"
exactly when the processed-meat or red-meat flag is active; a recipe with
"Pancetta" gets the processed-meat warning and both labels conditional, and a
high-sugar-only recipe keeps both labels suitable. -/
theorem analyze_recipe_health_spec :
    (∀ r : RecipeIn,
        (((analyze_recipe r).prostata_krebs = toL "bedingt"
            ∧ (analyze_recipe r).brustkrebs = toL "bedingt")
          ↔ (toL "processed_meat" ∈ (analyze_recipe r).risk_flags
             ∨ toL "red_meat" ∈ (analyze_recipe r).risk_flags))
      ∧ ((analyze_recipe r).prostata_krebs = toL "bedingt"
          ∨ (analyze_recipe r).prostata_krebs = toL "geeignet")
      ∧ ((analyze_recipe r).brustkrebs = toL "bedingt"
          ∨ (analyze_recipe r).brustkrebs = toL "geeignet"))
    ∧ (toL "Verarbeitetes Fleisch erkannt – ggf. durch pflanzliche Alternative ersetzen"
        ∈ (analyze_recipe ⟨toL "T", some (toL "K"), [toL "Pancetta"], [toL "S"]⟩).warnings
      ∧ (analyze_recipe ⟨toL "T", some (toL "K"), [toL "Pancetta"], [toL "S"]⟩).prostata_krebs
          = toL "bedingt"
      ∧ (analyze_recipe ⟨toL "T", some (toL "K"), [toL "Pancetta"], [toL "S"]⟩).brustkrebs
          = toL "bedingt")
    ∧ ((analyze_recipe ⟨toL "T", some (toL "K"), [toL "Zucker"], [toL "S"]⟩).prostata_krebs
          = toL "geeignet"
      ∧ (analyze_recipe ⟨toL "T", some (toL "K"), [toL "Zucker"], [toL "S"]⟩).brustkrebs
          = toL "geeignet"
      ∧ toL "high_sugar"
          ∈ (analyze_recipe ⟨toL "T", some (toL "K"), [toL "Zucker"], [toL "S"]⟩).risk_flags) := by
  have d1 : toL "processed_meat" ≠ toL "red_meat" := by decide
  have d2 : toL "processed_meat" ≠ toL "high_sugar" := by decide
  have d3 : toL "red_meat" ≠ toL "processed_meat" := by decide
  have d4 : toL "red_meat" ≠ toL "high_sugar" := by decide
  have d5 : toL "geeignet" ≠ toL "bedingt" := by decide
  refine ⟨fun r => ?_, ⟨by decide, by decide, by decide⟩, ⟨by decide, by decide, by decide⟩⟩
  cases hpm : containsAny (joinedIngredients (cleaned r.zutaten)) processedNeedles <;>
    cases hrm : containsAny (joinedIngredients (cleaned r.zutaten)) redNeedles <;>
      simp [analyze_recipe, hpm, hrm, d1, d2, d3, d4, d5]

/-- Claim C8: the measurement-coverage warning is emitted if and only if the
cleaned ingredient list is non-empty and the number of its entries without a
quantity expression exceeds `max 2 (#ingredients / 2)`; in particular a
recipe with no ingredients never receives it. -/
theorem analyze_recipe_measure_warning_spec (r : RecipeIn) :
    toL "Viele Zutaten ohne klare Mengenangaben" ∈ (analyze_recipe r).warnings
      ↔ (cleaned r.zutaten ≠ [] ∧
          max 2 ((cleaned r.zutaten).length / 2) <
            ((cleaned r.zutaten).filter fun i => !(measureSearch i)).length) := by
  have d1 : toL "Viele Zutaten ohne klare Mengenangaben" ≠ toL "Kategorie fehlt" := by decide
  have d2 : toL "Viele Zutaten ohne klare Mengenangaben"
      ≠ toL "Verarbeitetes Fleisch erkannt – ggf. durch pflanzliche Alternative ersetzen" := by
    decide
  have d3 : toL "Viele Zutaten ohne klare Mengenangaben"
      ≠ toL "Zuckeranteil prüfen und ggf. reduzieren" := by decide
  by_cases hc : (cleaned r.zutaten ≠ [] ∧
      max 2 ((cleaned r.zutaten).length / 2) <
        ((cleaned r.zutaten).filter fun i => !(measureSearch i)).length) <;>
    by_cases hk : strip (r.kategorie.getD []) = [] <;>
      cases hpm : containsAny (joinedIngredients (cleaned r.zutaten)) processedNeedles <;>
        cases hhs : containsAny (joinedIngredients (cleaned r.zutaten)) sugarNeedles <;>
          simp [analyze_recipe, hc, hk, hpm, hhs, d1, d2, d3]

/-- Claim C4: the aggregated report counts the recipes, averages the item
scores with one-decimal rounding (0 for the empty batch), sums issues and
warnings exactly, reports the candidate-list length, and lists the items in
input order; the empty batch yields the degenerate report without division. -/
theorem analyze_recipes_summary_spec (recipes : List RecipeIn) (threshold : ℚ) :
    (analyze_recipes recipes threshold).summary.count = recipes.length
    ∧ (analyze_recipes recipes threshold).summary.average_quality_score =
        (if recipes = [] then 0
         else round1 ((((recipes.map analyze_recipe).map fun it =>
            (it.quality_score : ℚ)).sum) / ((recipes.length : ℚ))))
    ∧ (analyze_recipes recipes threshold).summary.total_issues =
        ((recipes.map analyze_recipe).map fun it => it.issues.length).sum
    ∧ (analyze_recipes recipes threshold).summary.total_warnings =
        ((recipes.map analyze_recipe).map fun it => it.warnings.length).sum
    ∧ (analyze_recipes recipes threshold).summary.similar_candidates =
        (analyze_recipes recipes threshold).similar_candidates.length
    ∧ (analyze_recipes recipes threshold).items = recipes.map analyze_recipe
    ∧ (analyze_recipes [] threshold).summary.average_quality_score = 0
    ∧ (analyze_recipes [] threshold).summary.count = 0
    ∧ (analyze_recipes [] threshold).summary.total_issues = 0
    ∧ (analyze_recipes [] threshold).summary.total_warnings = 0
    ∧ (analyze_recipes [] threshold).similar_candidates = []
    ∧ (analyze_recipes [] threshold).items = [] := by
  refine ⟨?_, ?_, rfl, rfl, rfl, rfl, rfl, rfl, rfl, rfl, rfl, rfl⟩
  · show (recipes.map analyze_recipe).length = recipes.length
    simp
  · show (if recipes.map analyze_recipe = [] then (0 : ℚ)
        else round1 ((((recipes.map analyze_recipe).map fun it =>
          (it.quality_score : ℚ)).sum) / (((recipes.map analyze_recipe).length : ℚ)))) = _
    by_cases h : recipes = []
    · simp [h]
    · rw [if_neg (by simpa using h), if_neg h, List.length_map]

lemma splitBlankAux_ne_nil (s : Str) : ∀ fuel st p, splitBlankAux s fuel st p ≠ [] := by
  intro fuel
  induction fuel with
  | zero => intro st p; simp [splitBlankAux]
  | succ n ih =>
    intro st p
    unfold splitBlankAux
    by_cases h : p < s.length
    · rw [if_pos h]
      cases sepBlankAt s p with
      | some e => simp
      | none => exact ih st (p + 1)
    · rw [if_neg h]; simp

/-- Claim C5 counterexample: in the header-free block
`"Kuchen\nMehl\n\nRuehren\n\nBacken"` the remainder after the first line has
three blank-separated chunks; the third chunk's non-blank line `"Backen"`
ends up neither in the ingredients (`["Mehl"]`) nor in the steps
(`["Ruehren"]`), refuting the claim that every non-blank line of the
remainder lands in one of the two. -/
theorem rezept_parsen_fallback_counterexample :
    (rezept_parsen (toL "Kuchen\nMehl\n\nRuehren\n\nBacken")).zutaten = [toL "Mehl"]
    ∧ (rezept_parsen (toL "Kuchen\nMehl\n\nRuehren\n\nBacken")).schritte = [toL "Ruehren"]
    ∧ toL "Backen" ∈ splitlines (joinNl ((pyLines (toL "Kuchen\nMehl\n\nRuehren\n\nBacken")).drop 1))
    ∧ strip (toL "Backen") ≠ []
    ∧ toL "Backen" ∉ (rezept_parsen (toL "Kuchen\nMehl\n\nRuehren\n\nBacken")).zutaten
    ∧ toL "Backen" ∉ (rezept_parsen (toL "Kuchen\nMehl\n\nRuehren\n\nBacken")).schritte := by
  refine ⟨by decide, by decide, by decide, by decide, by decide, by decide⟩

/-- Claim C5 (amended): when neither ingredients nor steps are found via
headers, the parser splits the remainder after the first line on blank-line
runs; the first chunk's non-blank lines become the ingredients and the second
chunk's (when a second chunk exists) become the steps — chunks beyond the
second are discarded. -/
theorem rezept_parsen_fallback_spec (block : Str)
    (h1 : extractSection zutatenKws (gesamtOf block) = [])
    (h2 : extractSection instructionKws (gesamtOf block) = []) :
    (rezept_parsen block).zutaten =
      (if strip (joinNl ((pyLines block).drop 1)) = [] then []
       else cleanLines ((splitBlankRuns (strip (joinNl ((pyLines block).drop 1)))).getD 0 []))
    ∧ (rezept_parsen block).schritte =
      (if strip (joinNl ((pyLines block).drop 1)) = []
          ∨ (splitBlankRuns (strip (joinNl ((pyLines block).drop 1)))).length < 2 then []
       else cleanLines ((splitBlankRuns (strip (joinNl ((pyLines block).drop 1)))).getD 1 [])) := by
  have hne : splitBlankRuns (strip (joinNl ((pyLines block).tail))) ≠ [] :=
    splitBlankAux_ne_nil _ _ 0 0
  have h1le : 1 ≤ (splitBlankRuns (strip (joinNl ((pyLines block).tail)))).length :=
    Nat.one_le_iff_ne_zero.mpr (by simpa using hne)
  by_cases hr : strip (joinNl ((pyLines block).tail)) = []
  · constructor <;> simp [rezept_parsen, h1, h2, hr, List.drop_one]
  · by_cases h2le : 2 ≤ (splitBlankRuns (strip (joinNl ((pyLines block).tail)))).length
    · constructor <;>
        simp [rezept_parsen, h1, h2, hr, h1le, h2le, Nat.not_lt.mpr h2le, List.drop_one]
    · constructor <;>
        simp [rezept_parsen, h1, h2, hr, h1le, h2le, Nat.lt_of_not_le h2le, List.drop_one]

/-- Witness for the amended claim C5 at a concrete header-free block. -/
theorem rezept_parsen_fallback_spec_witness :
    extractSection zutatenKws (gesamtOf (toL "Kuchen\nMehl\n\nRuehren\n\nBacken")) = []
    ∧ (rezept_parsen (toL "Kuchen\nMehl\n\nRuehren\n\nBacken")).zutaten =
        (if strip (joinNl ((pyLines (toL "Kuchen\nMehl\n\nRuehren\n\nBacken")).drop 1)) = []
         then []
         else cleanLines ((splitBlankRuns (strip (joinNl
           ((pyLines (toL "Kuchen\nMehl\n\nRuehren\n\nBacken")).drop 1)))).getD 0 [])) :=
  ⟨by decide, (rezept_parsen_fallback_spec (toL "Kuchen\nMehl\n\nRuehren\n\nBacken")
      (by decide) (by decide)).1⟩

lemma sepBreakAt_past_end (s : Str) {p : ℕ} (h : s.length ≤ p) :
    sepBreakAt s p = none := by
  have hd : nthC s p = '\x00' := by
    unfold nthC
    rw [List.drop_eq_nil_of_le h]
    rfl
  unfold sepBreakAt
  have : lineBreakRun s (s.length + 1) p = (0, p) := by
    cases hfuel : s.length + 1 with
    | zero => simp at hfuel
    | succ n => unfold lineBreakRun; rw [hd]; simp
  rw [this]
  simp

lemma splitBreakAux_no_sep (s : Str) (h : ∀ p, sepBreakAt s p = none) :
    ∀ fuel st p, splitBreakAux s fuel st p = [pySlice s st s.length] := by
  intro fuel
  induction fuel with
  | zero => intro st p; rfl
  | succ n ih =>
    intro st p
    unfold splitBreakAux
    by_cases hp : p < s.length
    · rw [if_pos hp, h p]
      exact ih st (p + 1)
    · rw [if_neg hp]

lemma blocksLoop_eq (text : Str) : ∀ starts : List ℕ,
    blocksLoop text starts =
      ((starts.zip (starts.tail ++ [text.length])).map
        (fun pr => strip (pySlice text pr.1 pr.2))).filter fun b => decide (b ≠ []) := by
  intro starts
  induction starts with
  | nil => rfl
  | cons a rest ih =>
    cases rest with
    | nil =>
      by_cases hb : strip (pySlice text a text.length) = [] <;>
        simp [blocksLoop, hb, List.filter_cons]
    | cons b rest2 =>
      by_cases hb : strip (pySlice text a b) = [] <;>
        simp [blocksLoop, hb, List.filter_cons, ih]

/-- Claim C2: when title matches exist, the blocks run from each match start
to the next (or end of text), trimmed, with empties dropped; with no matches
the text splits on runs of three or more line breaks (trimmed, empties
dropped); and when no such run exists either, the fallback produces the whole
trimmed text as the single block, or nothing for blank input. -/
theorem rezepte_aufteilen_spec (text : Str) :
    rezepte_aufteilen text =
      (if titleStarts text = []
       then ((splitBreakRuns text).map strip).filter fun b => decide (b ≠ [])
       else (((titleStarts text).zip ((titleStarts text).tail ++ [text.length])).map
              (fun pr => strip (pySlice text pr.1 pr.2))).filter fun b => decide (b ≠ []))
    ∧ (noBreakRun text = true →
        ((splitBreakRuns text).map strip).filter (fun b => decide (b ≠ [])) =
          if strip text = [] then [] else [strip text]) := by
  constructor
  · by_cases hs : titleStarts text = []
    · simp [rezepte_aufteilen, hs]
    · simp [rezepte_aufteilen, hs, blocksLoop_eq]
  · intro hnb
    have hsep : ∀ p, sepBreakAt text p = none := by
      intro p
      by_cases hp : p < text.length
      · have := List.all_eq_true.mp hnb p (List.mem_range.mpr hp)
        simpa [Option.isNone_iff_eq_none] using this
      · exact sepBreakAt_past_end text (Nat.le_of_not_lt hp)
    have hrun : splitBreakRuns text = [pySlice text 0 text.length] :=
      splitBreakAux_no_sep text hsep (text.length + 1) 0 0
    have hslice : pySlice text 0 text.length = text := by
      simp [pySlice]
    rw [hrun, hslice]
    by_cases hstrip : strip text = [] <;> simp [hstrip, List.filter_cons]

/-- Witness for claim C2 at the run-free text `"hi"`. -/
theorem rezepte_aufteilen_spec_witness :
    noBreakRun (toL "hi") = true
    ∧ ((splitBreakRuns (toL "hi")).map strip).filter (fun b => decide (b ≠ [])) =
        (if strip (toL "hi") = [] then [] else [strip (toL "hi")]) :=
  ⟨by decide, (rezepte_aufteilen_spec (toL "hi")).2 (by decide)⟩

/-- The loop pairs `(i, j)` with `i < j < n`, in the nested-loop order of
`analyze_recipes`. -/
def pairsUpTo (n : ℕ) : List (ℕ × ℕ) :=
  (List.range n).flatMap fun i => (List.range' (i + 1) (n - (i + 1))).map fun j => (i, j)

lemma filterMap_ite {α β : Type} (p : α → Prop) [DecidablePred p] (g : α → β) (l : List α) :
    (l.filterMap fun a => if p a then some (g a) else none) =
      (l.filter fun a => decide (p a)).map g := by
  induction l with
  | nil => rfl
  | cons a t ih =>
    rw [List.filterMap_cons, List.filter_cons]
    by_cases h : p a <;> simp [h, ih]

lemma pairsUpTo_mem {n : ℕ} {ij : ℕ × ℕ} (h : ij ∈ pairsUpTo n) :
    ij.1 < ij.2 ∧ ij.2 < n := by
  unfold pairsUpTo at h
  rw [List.mem_flatMap] at h
  obtain ⟨i, hi, hj⟩ := h
  rw [List.mem_map] at hj
  obtain ⟨j, hj2, rfl⟩ := hj
  have h1 := List.mem_range'_1.mp hj2
  have h2 := List.mem_range.mp hi
  exact ⟨by omega, by omega⟩

lemma pairwise_lt_pairsUpTo (n : ℕ) :
    (pairsUpTo n).Pairwise fun x y => x.1 < y.1 ∨ (x.1 = y.1 ∧ x.2 < y.2) := by
  unfold pairsUpTo
  rw [List.flatMap_def, List.pairwise_flatten]
  constructor
  · intro l hl
    rw [List.mem_map] at hl
    obtain ⟨i, _, rfl⟩ := hl
    rw [List.pairwise_map]
    exact (List.pairwise_lt_range' _ _).imp fun h => Or.inr ⟨rfl, h⟩
  · rw [List.pairwise_map]
    refine (List.pairwise_lt_range n).imp ?_
    intro i j hij x hx y hy
    rw [List.mem_map] at hx hy
    obtain ⟨a, _, rfl⟩ := hx
    obtain ⟨b, _, rfl⟩ := hy
    exact Or.inl hij

/-- Claim C3: a similarity candidate is emitted for exactly the index pairs
`(i, j)`, `i < j`, whose unrounded Jaccard similarity reaches the threshold;
it carries the 3-decimal rounding of that similarity; the similarity of two
recipes is `|∩| / |∪|` of their title+ingredients token sets (0 when either
set is empty); every candidate has `index_a < index_b`; and the candidate
list ascends lexicographically in `(index_a, index_b)`. -/
theorem analyze_recipes_similarity_spec (recipes : List RecipeIn) (threshold : ℚ) :
    (analyze_recipes recipes threshold).similar_candidates =
      ((pairsUpTo recipes.length).filter fun ij =>
          decide (threshold ≤ recipe_similarity (recipes.getD ij.1 defaultRecipe)
            (recipes.getD ij.2 defaultRecipe))).map
        (fun ij =>
          { index_a := ij.1,
            titel_a := ((recipes.map analyze_recipe).getD ij.1 (analyze_recipe defaultRecipe)).titel,
            index_b := ij.2,
            titel_b := ((recipes.map analyze_recipe).getD ij.2 (analyze_recipe defaultRecipe)).titel,
            similarity := round3 (recipe_similarity (recipes.getD ij.1 defaultRecipe)
              (recipes.getD ij.2 defaultRecipe)) })
    ∧ (∀ a b : RecipeIn,
        recipe_similarity a b =
          (if tokenize (simText a) = ∅ ∨ tokenize (simText b) = ∅ then 0
           else ((tokenize (simText a) ∩ tokenize (simText b)).card : ℚ)
             / ((tokenize (simText a) ∪ tokenize (simText b)).card : ℚ)))
    ∧ ((analyze_recipes recipes threshold).similar_candidates.all fun c =>
          decide (c.index_a < c.index_b)) = true
    ∧ (analyze_recipes recipes threshold).similar_candidates.Pairwise
        (fun x y => x.index_a < y.index_a ∨ (x.index_a = y.index_a ∧ x.index_b < y.index_b)) := by
  have hmain : (analyze_recipes recipes threshold).similar_candidates =
      ((pairsUpTo recipes.length).filter fun ij =>
          decide (threshold ≤ recipe_similarity (recipes.getD ij.1 defaultRecipe)
            (recipes.getD ij.2 defaultRecipe))).map
        (fun ij =>
          { index_a := ij.1,
            titel_a := ((recipes.map analyze_recipe).getD ij.1 (analyze_recipe defaultRecipe)).titel,
            index_b := ij.2,
            titel_b := ((recipes.map analyze_recipe).getD ij.2 (analyze_recipe defaultRecipe)).titel,
            similarity := round3 (recipe_similarity (recipes.getD ij.1 defaultRecipe)
              (recipes.getD ij.2 defaultRecipe)) }) := by
    have hcand : (analyze_recipes recipes threshold).similar_candidates =
        (List.range recipes.length).flatMap (fun i =>
          (List.range' (i + 1) (recipes.length - (i + 1))).filterMap fun j =>
            if threshold ≤ recipe_similarity (recipes.getD i defaultRecipe)
                (recipes.getD j defaultRecipe) then
              some { index_a := i,
                     titel_a := ((recipes.map analyze_recipe).getD i
                       (analyze_recipe defaultRecipe)).titel,
                     index_b := j,
                     titel_b := ((recipes.map analyze_recipe).getD j
                       (analyze_recipe defaultRecipe)).titel,
                     similarity := round3 (recipe_similarity (recipes.getD i defaultRecipe)
                       (recipes.getD j defaultRecipe)) }
            else none) := rfl
    rw [hcand]
    unfold pairsUpTo
    rw [List.filter_flatMap, List.map_flatMap]
    refine congrArg (List.flatMap (List.range recipes.length)) (funext fun i => ?_)
    rw [filterMap_ite (fun j => threshold ≤ recipe_similarity (recipes.getD i defaultRecipe)
      (recipes.getD j defaultRecipe))]
    rw [List.filter_map, List.map_map]
    rfl
  refine ⟨hmain, fun a b => rfl, ?_, ?_⟩
  · rw [hmain, List.all_eq_true]
    intro c hc
    rw [List.mem_map] at hc
    obtain ⟨ij, hij, rfl⟩ := hc
    rw [List.mem_filter] at hij
    exact decide_eq_true (pairsUpTo_mem hij.1).1
  · rw [hmain, List.pairwise_map]
    exact ((pairwise_lt_pairsUpTo recipes.length).sublist (List.filter_sublist _)).imp
      fun h => h

lemma titleScanAux_lb (s : Str) : ∀ fuel p q, q ∈ titleScanAux s fuel p → p ≤ q := by
  intro fuel
  induction fuel with
  | zero => intro p q hq; simp [titleScanAux] at hq
  | succ n ih =>
    intro p q hq
    unfold titleScanAux at hq
    by_cases hp : p < s.length
    · rw [if_pos hp] at hq
      cases hm : titleMatchAt s p with
      | some pr =>
        rw [hm] at hq
        rcases List.mem_cons.mp hq with h1 | h1
        · omega
        · have := ih (max pr.1 (p + 1)) q h1
          omega
      | none =>
        rw [hm] at hq
        have := ih (p + 1) q hq
        omega
    · rw [if_neg hp] at hq; simp at hq

lemma titleScanAux_cons (s : Str) : ∀ fuel p q tl, titleScanAux s fuel p = q :: tl →
    (∃ pr, titleMatchAt s q = some pr) ∧ q < s.length ∧ ∀ r ∈ tl, q < r := by
  intro fuel
  induction fuel with
  | zero => intro p q tl hq; simp [titleScanAux] at hq
  | succ n ih =>
    intro p q tl hq
    unfold titleScanAux at hq
    by_cases hp : p < s.length
    · rw [if_pos hp] at hq
      cases hm : titleMatchAt s p with
      | some pr =>
        rw [hm] at hq
        have hq1 : p = q ∧ titleScanAux s n (max pr.1 (p + 1)) = tl := by
          have := List.cons.injEq .. ▸ hq
          exact ⟨(List.cons.inj hq).1, (List.cons.inj hq).2⟩
        obtain ⟨rfl, htl⟩ := hq1
        refine ⟨⟨pr, hm⟩, hp, ?_⟩
        intro r hr
        rw [← htl] at hr
        have := titleScanAux_lb s n (max pr.1 (p + 1)) r hr
        omega
      | none =>
        rw [hm] at hq
        exact ih (p + 1) q tl hq
    · rw [if_neg hp] at hq; cases hq

lemma lowerPrefixAt_head {s : Str} {p : ℕ} {c : Char} {kw : Str}
    (h : lowerPrefixAt s p (c :: kw) = true) :
    lowerChar (nthC s p) = c ∧ p < s.length := by
  unfold lowerPrefixAt at h
  rw [decide_eq_true_eq] at h
  cases hd : s.drop p with
  | nil => rw [hd] at h; simp at h
  | cons x xs =>
    rw [hd, List.length_cons, List.take_succ_cons, List.map_cons] at h
    have hx : lowerChar x = c := (List.cons.inj h).1
    have hp : p < s.length := by
      by_contra hge
      rw [List.drop_eq_nil_of_le (Nat.le_of_not_lt hge)] at hd
      cases hd
    refine ⟨?_, hp⟩
    unfold nthC
    rw [hd]
    exact hx

lemma titleMatchAt_first_char {s : Str} {p : ℕ} {pr : ℕ × ℕ}
    (h : titleMatchAt s p = some pr) : lowerChar (nthC s p) = 't' ∧ p < s.length := by
  unfold titleMatchAt at h
  by_cases hls : isLineStart s p = true
  · rw [if_pos hls] at h
    unfold titleKws at h
    rw [List.findSome?_cons] at h
    by_cases h1 : lowerPrefixAt s p (toL "titel") = true
    · rw [if_pos h1] at h
      cases ht : titleTailAt s (p + (toL "titel").length) with
      | some x => exact lowerPrefixAt_head h1
      | none =>
        rw [ht] at h
        rw [List.findSome?_cons] at h
        by_cases h2 : lowerPrefixAt s p (toL "title") = true
        · exact lowerPrefixAt_head h2
        · rw [if_neg h2] at h; cases h
    · rw [if_neg h1] at h
      rw [List.findSome?_cons] at h
      by_cases h2 : lowerPrefixAt s p (toL "title") = true
      · exact lowerPrefixAt_head h2
      · rw [if_neg h2] at h; cases h
  · rw [if_neg hls] at h; cases h

lemma lowerChar_t_not_ws {c : Char} (h : lowerChar c = 't') : pyWs c = false := by
  by_contra hw
  have hw2 : pyWs c = true := by
    cases hb : pyWs c
    · exact absurd hb hw
    · rfl
  have hcs := hw2
  simp only [pyWs, Bool.or_eq_true, decide_eq_true_eq] at hcs
  rcases hcs with ((((rfl | rfl) | rfl) | rfl) | rfl) | rfl <;> exact absurd h (by decide)

lemma strip_cons_not_ws {c : Char} (hc : pyWs c = false) (l : Str) :
    strip (c :: l) ≠ [] ∧ ∃ post, strip (c :: l) ++ post = c :: l := by
  obtain ⟨post, hpost⟩ := rstrip_decomp (c :: l)
  have hne : rstripF (c :: l) ≠ [] := by
    intro h0
    have hrev : (c :: l).reverse.dropWhile pyWs = [] := by
      have := congrArg List.reverse h0
      simpa [rstripF] using this
    have hall := List.dropWhile_eq_nil_iff.mp hrev
    have hcw : pyWs c = true := hall c (by simp)
    rw [hc] at hcw
    cases hcw
  obtain ⟨x, xs, hx⟩ : ∃ x xs, rstripF (c :: l) = x :: xs := by
    cases hr : rstripF (c :: l) with
    | nil => exact absurd hr hne
    | cons x xs => exact ⟨x, xs, rfl⟩
  have hxc : x = c := by
    rw [hx] at hpost
    exact (List.cons.inj hpost).1
  have hstrip : strip (c :: l) = x :: xs := by
    show lstripF (rstripF (c :: l)) = x :: xs
    rw [hx]
    unfold lstripF
    rw [List.dropWhile_cons, if_neg (by rw [hxc, hc]; simp)]
  refine ⟨by rw [hstrip]; simp, ⟨post, ?_⟩⟩
  rw [hstrip, ← hx]
  exact hpost

lemma pySlice_decomp (text : Str) {a s0 : ℕ} (e : ℕ) (h : s0 ≤ a) :
    ∃ pre post, pre ++ (pySlice text a e ++ post) = text.drop s0 := by
  refine ⟨(text.drop s0).take (a - s0), (text.drop a).drop (e - a), ?_⟩
  have hdrop : (text.drop s0).drop (a - s0) = text.drop a := by
    rw [List.drop_drop]
    congr 1
    omega
  calc (text.drop s0).take (a - s0) ++ (pySlice text a e ++ (text.drop a).drop (e - a))
      = (text.drop s0).take (a - s0) ++ (text.drop a) := by
        unfold pySlice
        rw [List.take_append_drop]
    _ = (text.drop s0).take (a - s0) ++ ((text.drop s0).drop (a - s0)) := by rw [hdrop]
    _ = text.drop s0 := List.take_append_drop _ _

/-- Claim C10: when the text contains title-header matches, everything before
the first match is discarded: the first returned block is a prefix of the
text from the first match start (so it starts at the first title line), and
every returned block lies inside the text from that position on. -/
theorem rezepte_aufteilen_head_spec (text : Str) (s0 : ℕ) (rest : List ℕ)
    (h : titleStarts text = s0 :: rest) :
    (∃ b tl, rezepte_aufteilen text = b :: tl ∧ b ≠ [] ∧ ∃ post, b ++ post = text.drop s0)
    ∧ ∀ b ∈ rezepte_aufteilen text, ∃ pre post, pre ++ (b ++ post) = text.drop s0 := by
  obtain ⟨⟨pr, hm⟩, hs0len, hrest⟩ :=
    titleScanAux_cons text (text.length + 1) 0 s0 rest h
  have hfc := titleMatchAt_first_char hm
  have hnws : pyWs (nthC text s0) = false := lowerChar_t_not_ws hfc.1
  have hne : titleStarts text ≠ [] := by rw [h]; simp
  have hblocks : rezepte_aufteilen text =
      (((titleStarts text).zip ((titleStarts text).tail ++ [text.length])).map
        (fun pr => strip (pySlice text pr.1 pr.2))).filter fun b => decide (b ≠ []) := by
    unfold rezepte_aufteilen
    rw [if_neg hne, blocksLoop_eq]
  obtain ⟨c, d, hd⟩ : ∃ c d, text.drop s0 = c :: d := by
    cases hdd : text.drop s0 with
    | nil =>
      have hlen : (text.drop s0).length = text.length - s0 := List.length_drop _ _
      rw [hdd] at hlen
      simp at hlen
      omega
    | cons c d => exact ⟨c, d, rfl⟩
  have hnth : nthC text s0 = c := by
    unfold nthC
    rw [hd]
    rfl
  have hcnw : pyWs c = false := by rw [hnth] at hnws; exact hnws
  constructor
  · have hslice : ∃ e0 tl2,
        ((titleStarts text).zip ((titleStarts text).tail ++ [text.length]))
          = (s0, e0) :: tl2 ∧ ∃ d2, pySlice text s0 e0 = c :: d2 := by
      cases hr : rest with
      | nil =>
        refine ⟨text.length, [], by rw [h, hr]; rfl, d, ?_⟩
        unfold pySlice
        have hl2 : text.length - s0 = (text.drop s0).length := (List.length_drop _ _).symm
        rw [hl2, List.take_length, hd]
      | cons r1 rest2 =>
        have hlt : s0 < r1 := hrest r1 (by rw [hr]; simp)
        refine ⟨r1, _, by rw [h, hr]; rfl, ?_⟩
        unfold pySlice
        obtain ⟨k, hk⟩ : ∃ k, r1 - s0 = k + 1 := ⟨r1 - s0 - 1, by omega⟩
        rw [hk, hd, List.take_succ_cons]
        exact ⟨d.take k, rfl⟩
    obtain ⟨e0, tl2, hzip, d2, hsl⟩ := hslice
    have hb := strip_cons_not_ws hcnw d2
    rw [← hsl] at hb
    obtain ⟨hbne, post2, hpost2⟩ := hb
    refine ⟨strip (pySlice text s0 e0),
      ((tl2.map fun pr => strip (pySlice text pr.1 pr.2)).filter fun b => decide (b ≠ [])),
      ?_, hbne, ?_⟩
    · rw [hblocks, hzip, List.map_cons, List.filter_cons, if_pos (decide_eq_true hbne)]
    · refine ⟨post2 ++ (text.drop s0).drop (e0 - s0), ?_⟩
      rw [← List.append_assoc, hpost2]
      have hsl2 : pySlice text s0 e0 = (text.drop s0).take (e0 - s0) := rfl
      rw [hsl2]
      exact List.take_append_drop _ _
  · intro b hb
    rw [hblocks, List.mem_filter] at hb
    obtain ⟨hb1, _⟩ := hb
    rw [List.mem_map] at hb1
    obtain ⟨ij, hij, rfl⟩ := hb1
    have hmem := (List.of_mem_zip hij).1
    have hge : s0 ≤ ij.1 := by
      rw [h] at hmem
      rcases List.mem_cons.mp hmem with heq | hmem2
      · omega
      · have := hrest ij.1 hmem2
        omega
    obtain ⟨pre, post, hdec⟩ := pySlice_decomp text ij.2 hge
    obtain ⟨pre2, post2, hdec2⟩ := strip_decomp (pySlice text ij.1 ij.2)
    refine ⟨pre ++ pre2, post2 ++ post, ?_⟩
    calc (pre ++ pre2) ++ (strip (pySlice text ij.1 ij.2) ++ (post2 ++ post))
        = pre ++ ((pre2 ++ (strip (pySlice text ij.1 ij.2) ++ post2)) ++ post) := by
          simp [List.append_assoc]
      _ = pre ++ (pySlice text ij.1 ij.2 ++ post) := by rw [hdec2]
      _ = text.drop s0 := hdec

/-- Witness for claim C10 at a text with leading junk before its only title
line. -/
theorem rezepte_aufteilen_head_spec_witness :
    ((∃ b tl, rezepte_aufteilen (toL "x\nTitel: A") = b :: tl ∧ b ≠ []
        ∧ ∃ post, b ++ post = (toL "x\nTitel: A").drop 2)
      ∧ ∀ b ∈ rezepte_aufteilen (toL "x\nTitel: A"),
          ∃ pre post, pre ++ (b ++ post) = (toL "x\nTitel: A").drop 2) :=
  rezepte_aufteilen_head_spec (toL "x\nTitel: A") 2 [] (by decide)
